import Mathlib

/-
Verification of the fut-search streaming CSV search engine (src/src/index.ts).

Strings are modelled as lists of Unicode code points (`JStr`).  JavaScript
string operations used by the source (`toLowerCase`, `normalize("NFKD")`,
the regex replace, `includes`, `endsWith`, `parseInt(·, 10)`) are embedded
over that representation.  `toLowerCase` and the NFKD decomposition are
table-driven in Unicode; the tables here are the exact fragment of the
Unicode data covering Basic Latin, the Latin-1 letters, and the handful of
compatibility characters used in the theorems below (each entry can be
checked against UnicodeData.txt).  On code points outside the tables the
model leaves characters unchanged; all concrete inputs evaluated in the
theorems stay inside the faithful fragment.
-/

/-- A JavaScript string, as its list of Unicode code points. -/
abbrev JStr := List Nat

/-- Code points of a Lean string literal (used to write concrete JS strings). -/
def strCodes (s : String) : JStr := s.data.map (fun c => c.toNat)

/-- Fragment of the Unicode simple-lowercase mapping used by JS
`String.prototype.toLowerCase`: ASCII `A`-`Z` and the Latin-1 uppercase
letters `À`-`Ö`, `Ø`-`Þ` map down by 0x20; all other code points in the
modelled fragment (including U+2102, which has no lowercase mapping in
UnicodeData.txt) are fixed. -/
def lowerChar (c : Nat) : Nat :=
  if 0x41 ≤ c ∧ c ≤ 0x5A then c + 0x20
  else if (0xC0 ≤ c ∧ c ≤ 0xD6) ∨ (0xD8 ≤ c ∧ c ≤ 0xDE) then c + 0x20
  else c

/-- Canonical (NFD) decompositions of the Latin-1 lowercase letters, from
UnicodeData.txt (base letter followed by a combining mark). -/
def latinDecomp : List (Nat × List Nat) :=
  [(0xE0, [0x61, 0x300]), (0xE1, [0x61, 0x301]), (0xE2, [0x61, 0x302]),
   (0xE3, [0x61, 0x303]), (0xE4, [0x61, 0x308]), (0xE5, [0x61, 0x30A]),
   (0xE7, [0x63, 0x327]),
   (0xE8, [0x65, 0x300]), (0xE9, [0x65, 0x301]), (0xEA, [0x65, 0x302]),
   (0xEB, [0x65, 0x308]),
   (0xEC, [0x69, 0x300]), (0xED, [0x69, 0x301]), (0xEE, [0x69, 0x302]),
   (0xEF, [0x69, 0x308]),
   (0xF1, [0x6E, 0x303]),
   (0xF2, [0x6F, 0x300]), (0xF3, [0x6F, 0x301]), (0xF4, [0x6F, 0x302]),
   (0xF5, [0x6F, 0x303]), (0xF6, [0x6F, 0x308]),
   (0xF9, [0x75, 0x300]), (0xFA, [0x75, 0x301]), (0xFB, [0x75, 0x302]),
   (0xFC, [0x75, 0x308]),
   (0xFD, [0x79, 0x301]), (0xFF, [0x79, 0x308])]

/-- Compatibility-only decompositions (present in NFKD but not in NFD),
from UnicodeData.txt: the superscript digits and U+2102 DOUBLE-STRUCK
CAPITAL C, whose `<font>` decomposition is the plain letter `C`. -/
def compatDecomp : List (Nat × List Nat) :=
  [(0xB2, [0x32]), (0xB3, [0x33]), (0xB9, [0x31]), (0x2102, [0x43])]

/-- NFKD decomposition of one code point (fragment; identity off the tables). -/
def nfkdChar (c : Nat) : List Nat :=
  ((latinDecomp ++ compatDecomp).lookup c).getD [c]

/-- NFD (canonical-only) decomposition of one code point (fragment). -/
def nfdChar (c : Nat) : List Nat :=
  (latinDecomp.lookup c).getD [c]

/-- The code points matched by the JS regex class `\s`
(ECMAScript WhiteSpace and LineTerminator). -/
def jsSpaceChars : List Nat :=
  [0x9, 0xA, 0xB, 0xC, 0xD, 0x20, 0xA0, 0x1680,
   0x2000, 0x2001, 0x2002, 0x2003, 0x2004, 0x2005, 0x2006, 0x2007,
   0x2008, 0x2009, 0x200A, 0x2028, 0x2029, 0x202F, 0x205F, 0x3000, 0xFEFF]

/-- Membership in the JS `\s` class. -/
def isJsSpace (c : Nat) : Bool := jsSpaceChars.contains c

/-- Membership in the JS `\w` class: `[A-Za-z0-9_]` (ASCII only). -/
def isWordChar (c : Nat) : Bool :=
  decide ((0x41 ≤ c ∧ c ≤ 0x5A) ∨ (0x61 ≤ c ∧ c ≤ 0x7A) ∨
          (0x30 ≤ c ∧ c ≤ 0x39) ∨ c = 0x5F)

/-- The character class of the regex `[^\w\s.-_\/]` in `playerMatch`
(src/src/index.ts lines 146 and 150), giving the code points that are KEPT
by `.replace(/[^\w\s.-_\/]/g, '')`.  Inside a regex character class the
three tokens `.`, `-`, `_` form the range U+002E-U+005F, so the kept set is
`\w`, `\s`, that ASCII range, and `/`. -/
def reClassKeep (c : Nat) : Bool :=
  isWordChar c || isJsSpace c || decide (0x2E ≤ c ∧ c ≤ 0x5F) || decide (c = 0x2F)

/-- JS `s.toLowerCase()`. -/
def jsToLower (s : JStr) : JStr := s.map lowerChar

/-- JS `s.normalize("NFKD")` (decomposition of each code point; the inputs
evaluated in this file never contain precomposed sequences that NFKD would
also reorder, so per-character decomposition is exact on them). -/
def jsNFKD (s : JStr) : JStr := s.flatMap nfkdChar

/-- The normalization pipeline of `playerMatch` (lines 143-150):
`.toLowerCase().normalize("NFKD").replace(/[^\w\s.-_\/]/g, '')`. -/
def jsNormalize (s : JStr) : JStr := (jsNFKD (jsToLower s)).filter reClassKeep

/-- Does `hay` begin with `needle`? -/
def leadsWith : JStr → JStr → Bool
  | _, [] => true
  | [], _ :: _ => false
  | a :: as, b :: bs => a == b && leadsWith as bs

/-- JS `hay.includes(needle)`: contiguous-substring test. -/
def includes : JStr → JStr → Bool
  | [], needle => leadsWith [] needle
  | a :: t, needle => leadsWith (a :: t) needle || includes t needle

/-- JS `s.endsWith(suffix)`. -/
def jsEndsWith (s suffix : JStr) : Bool := suffix.isSuffixOf s

/-- A JS number as produced by `parseInt(·, 10)`: an integer or `NaN`. -/
inductive JNum where
  | nan : JNum
  | int (i : Int) : JNum
deriving DecidableEq, Repr

/-- JS strict equality `===` restricted to numbers: `NaN` is equal to
nothing, including itself. -/
def jnumEq (a b : JNum) : Bool :=
  match a, b with
  | JNum.int x, JNum.int y => x == y
  | _, _ => false

/-- JS `String(n)` for a number in this model. -/
def jnumToStr (n : JNum) : JStr :=
  match n with
  | JNum.nan => strCodes "NaN"
  | JNum.int i => strCodes (toString i)

/-- A decimal digit. -/
def isDigit (c : Nat) : Bool := decide (0x30 ≤ c ∧ c ≤ 0x39)

/-- Value of a digit string. -/
def digitsVal (ds : List Nat) : Nat := ds.foldl (fun a c => a * 10 + (c - 0x30)) 0

/-- JS `parseInt(s, 10)`: skip leading whitespace, optional sign, read the
longest digit run, ignore the rest; `NaN` when there are no digits. -/
def parseInt10 (s : JStr) : JNum :=
  match s.dropWhile isJsSpace with
  | [] => JNum.nan
  | c :: rest =>
    let core := if c = 0x2D ∨ c = 0x2B then rest else c :: rest
    let ds := core.takeWhile isDigit
    if ds.isEmpty then JNum.nan
    else JNum.int ((if c = 0x2D then -1 else 1) * (digitsVal ds : Int))

/-- The `Player` interface (src/src/index.ts lines 16-30): five string
fields and seven integer fields. -/
structure Player where
  name : JStr
  club : JStr
  position : JStr
  revision : JStr
  league : JStr
  rating : JNum
  pace : JNum
  shooting : JNum
  passing : JNum
  dribbling : JNum
  defending : JNum
  physicality : JNum
deriving DecidableEq, Repr

/-- The keys of the `Player` / `PartialPlayer` interfaces. -/
inductive Key where
  | name | club | position | revision | league
  | rating | pace | shooting | passing | dribbling | defending | physicality
deriving DecidableEq, Repr

/-- Is the field one of the seven integer-typed fields? -/
def numericField (f : Key) : Bool :=
  match f with
  | Key.name | Key.club | Key.position | Key.revision | Key.league => false
  | _ => true

/-- A value stored in a `PartialPlayer` entry: `string | number`. -/
inductive QVal where
  | str (s : JStr) : QVal
  | num (n : JNum) : QVal
deriving DecidableEq, Repr

/-- A value read from a `Player` by key. -/
inductive PVal where
  | str (s : JStr) : PVal
  | num (n : JNum) : PVal
deriving DecidableEq, Repr

/-- `player[key]`. -/
def Player.get (p : Player) (f : Key) : PVal :=
  match f with
  | Key.name => PVal.str p.name
  | Key.club => PVal.str p.club
  | Key.position => PVal.str p.position
  | Key.revision => PVal.str p.revision
  | Key.league => PVal.str p.league
  | Key.rating => PVal.num p.rating
  | Key.pace => PVal.num p.pace
  | Key.shooting => PVal.num p.shooting
  | Key.passing => PVal.num p.passing
  | Key.dribbling => PVal.num p.dribbling
  | Key.defending => PVal.num p.defending
  | Key.physicality => PVal.num p.physicality

/-- JS `String(v)` on a player value. -/
def pvalToStr (v : PVal) : JStr :=
  match v with
  | PVal.str s => s
  | PVal.num n => jnumToStr n

/-- The `PartialPlayer` interface: its entries in `Object.entries` order. -/
abbrev PartialPlayer := List (Key × QVal)

/-- One iteration of the loop body of `playerMatch` (lines 136-155): the
numeric branch is JS `partial[key] !== player[key]` on numbers (strict,
`NaN` never equal), the string branch normalizes both sides and tests
`includes`. -/
def matchKey (pl : Player) (kv : Key × QVal) : Bool :=
  match kv with
  | (f, QVal.num n) =>
    match pl.get f with
    | PVal.num m => jnumEq n m
    | PVal.str _ => false
  | (f, QVal.str s) =>
    includes (jsNormalize (pvalToStr (pl.get f))) (jsNormalize s)

/-- `FUTSearch.playerMatch` (lines 135-157): every entry of the partial
must match; the empty partial matches everything. -/
def playerMatch (pq : PartialPlayer) (pl : Player) : Bool :=
  pq.all (matchKey pl)

/-- A raw CSV record as delivered by the parser with `headers: true`:
column-header text paired with raw cell text, in column order. -/
abbrev RawRecord := List (JStr × JStr)

/-- Lookup in the `formattedRecord` object built by `parsePlayer`
(lines 109-112): every header key is lower-cased, later duplicates
overwrite earlier ones. -/
def lookupLower (r : RawRecord) (k : JStr) : Option JStr :=
  r.foldl (fun acc kv => if jsToLower kv.1 = k then some kv.2 else acc) none

/-- JS `String(v)` where `v` is a looked-up cell: a missing property is
`undefined` and stringifies to the literal text `"undefined"`. -/
def jsString (o : Option JStr) : JStr := o.getD (strCodes "undefined")

/-- `FUTSearch.parsePlayer` (lines 108-127): string fields via `String(·)`,
numeric fields via `parseInt(·, 10)` (a missing cell is `undefined`, which
`parseInt` coerces to the text `"undefined"`, yielding `NaN`). -/
def parsePlayer (r : RawRecord) : Player :=
  { name := jsString (lookupLower r (strCodes "name")),
    club := jsString (lookupLower r (strCodes "club")),
    position := jsString (lookupLower r (strCodes "position")),
    revision := jsString (lookupLower r (strCodes "revision")),
    league := jsString (lookupLower r (strCodes "league")),
    rating := parseInt10 (jsString (lookupLower r (strCodes "rating"))),
    pace := parseInt10 (jsString (lookupLower r (strCodes "pace"))),
    shooting := parseInt10 (jsString (lookupLower r (strCodes "shooting"))),
    passing := parseInt10 (jsString (lookupLower r (strCodes "passing"))),
    dribbling := parseInt10 (jsString (lookupLower r (strCodes "dribbling"))),
    defending := parseInt10 (jsString (lookupLower r (strCodes "defending"))),
    physicality := parseInt10 (jsString (lookupLower r (strCodes "physicality"))) }

/-- Observable outcome of one `listPlayersBatch` stream session:
the resolved accumulators, the number of records delivered by the source
(`data` events received, i.e. records read from the CSV), and the number of
records actually parsed into `Player`s. -/
structure EngineState where
  results : List (List Player)
  recordsRead : Nat
  recordsParsed : Nat
deriving DecidableEq, Repr

/-- `partialPlayers.map(() => [])` (line 169). -/
def emptyAccs (pqs : List PartialPlayer) : List (List Player) :=
  pqs.map (fun _ => [])

/-- The per-record accumulator update (lines 199-205): append the parsed
player to the accumulator of every matching partial, unless
`firstMatchOnly` is set and that accumulator already holds an entry. -/
def updateAccs (pl : Player) (fmo : Bool) (pqs : List PartialPlayer)
    (accs : List (List Player)) : List (List Player) :=
  List.zipWith
    (fun q acc =>
      if playerMatch q pl && !(fmo && decide (0 < acc.length)) then acc ++ [pl] else acc)
    pqs accs

/-- The `data`/`end` event loop of `listPlayersBatch` (lines 184-209).
On each incoming record the engine first checks the early-resolve
condition (`firstMatchOnly` set and every accumulator nonempty); if it
holds it resolves and destroys the streams — the triggering record was
delivered by the source (counted in `recordsRead`) but never parsed.
Otherwise the record is parsed once and matched against every partial.
When the source is exhausted the `end` handler resolves the accumulators. -/
def runRows (pqs : List PartialPlayer) (fmo : Bool) :
    List RawRecord → List (List Player) → Nat → Nat → EngineState
  | [], accs, nRead, nParsed => ⟨accs, nRead, nParsed⟩
  | row :: rest, accs, nRead, nParsed =>
    if fmo && accs.all (fun a => decide (0 < a.length)) then
      ⟨accs, nRead + 1, nParsed⟩
    else
      runRows pqs fmo rest (updateAccs (parsePlayer row) fmo pqs accs)
        (nRead + 1) (nParsed + 1)

/-- One full stream session of `listPlayersBatch` over a successfully
opened source delivering `rows`. -/
def runEngine (pqs : List PartialPlayer) (rows : List RawRecord) (fmo : Bool) :
    EngineState :=
  runRows pqs fmo rows (emptyAccs pqs) 0 0

/-- The value `listPlayersBatch` resolves with on a successful read
(lines 166-214). -/
def listPlayersBatch (pqs : List PartialPlayer) (rows : List RawRecord)
    (fmo : Bool) : List (List Player) :=
  (runEngine pqs rows fmo).results

/-- `listPlayersBatch` including the failure path: a source that fails to
open or read rejects the promise with its error (lines 174-177). -/
def listPlayersBatchE (src : Except JStr (List RawRecord))
    (pqs : List PartialPlayer) (fmo : Bool) : Except JStr (List (List Player)) :=
  match src with
  | Except.error e => Except.error e
  | Except.ok rows => Except.ok (listPlayersBatch pqs rows fmo)

/-- `listPlayers` (lines 221-224): single-element batch, default options
(`firstMatchOnly` undefined, hence falsy), first result set returned. -/
def listPlayersE (src : Except JStr (List RawRecord)) (q : PartialPlayer) :
    Except JStr (List Player) :=
  match listPlayersBatchE src [q] false with
  | Except.error e => Except.error e
  | Except.ok rss => Except.ok (rss.headD [])

/-- `findPlayer` (lines 231-234): single-element batch with
`firstMatchOnly: true`; destructuring `[[player]]` yields the first entry
of the first result set, or `undefined` (here `none`) when it is empty. -/
def findPlayerE (src : Except JStr (List RawRecord)) (q : PartialPlayer) :
    Except JStr (Option Player) :=
  match listPlayersBatchE src [q] true with
  | Except.error e => Except.error e
  | Except.ok rss => Except.ok ((rss.headD []).head?)

/-- The `.csv` suffix checked by the `dataPath` setter. -/
def csvSuffix : JStr := strCodes ".csv"

/-- The error message thrown by the setter (line 88). -/
def dataPathError : JStr := strCodes "dataPath must point to a CSV file"

/-- The `dataPath` setter (lines 85-91): accept iff the value ends in
`.csv`; it performs no other check (in particular no file-system access). -/
def setDataPath (val : JStr) : Except JStr JStr :=
  if jsEndsWith val csvSuffix then Except.ok val else Except.error dataPathError

/-- The constructor (lines 97-101): `if (dataPath) { this.dataPath = dataPath }`.
A missing argument or a falsy one (the empty string) leaves the default
path in place; a truthy argument goes through the validating setter.
The result is the stored `_dataPath` or the thrown error. -/
def mkFUTSearch (defaultPath : JStr) (arg : Option JStr) : Except JStr JStr :=
  match arg with
  | none => Except.ok defaultPath
  | some p => if p.isEmpty then Except.ok defaultPath else setDataPath p

/-- Spec-side character-keep predicate, transcribed from the spec's words
for comparison with `reClassKeep` (refinement check for C3): keep exactly
word characters, whitespace, and the four characters `.`, `-`, `_`, `/`. -/
def specKeep (c : Nat) : Bool :=
  isWordChar c || isJsSpace c ||
    decide (c = 0x2E ∨ c = 0x2D ∨ c = 0x5F ∨ c = 0x2F)

/-- Spec-side normalization, transcribed from the spec's words for
comparison with `jsNormalize`: case-fold, Unicode canonical decomposition
(NFD), then strip every character outside `specKeep`. -/
def specNormalize (s : JStr) : JStr :=
  ((s.map lowerChar).flatMap nfdChar).filter specKeep

/-- Per-code-point form of `jsNormalize` used in the idempotence proof. -/
def normChar (c : Nat) : List Nat :=
  (nfkdChar (lowerChar c)).filter reClassKeep

/-- The literal text a missing column stringifies to. -/
def undefStr : JStr := strCodes "undefined"

/-- Concrete partial: `{name: "a"}`. -/
def cq0 : PartialPlayer := [(Key.name, QVal.str (strCodes "a"))]

/-- Concrete partial: `{name: "b"}`. -/
def cq1 : PartialPlayer := [(Key.name, QVal.str (strCodes "b"))]

/-- Concrete record with name `"a"`. -/
def cr1 : RawRecord := [(strCodes "name", strCodes "a")]

/-- Concrete record with name `"c"`. -/
def cr2 : RawRecord := [(strCodes "name", strCodes "c")]

/-- Concrete record with name `"ab"` (matches both `cq0` and `cq1`). -/
def cr3 : RawRecord := [(strCodes "name", strCodes "ab")]

/-- Concrete record with name `"z"`. -/
def cr4 : RawRecord := [(strCodes "name", strCodes "z")]

/-- The player parsed from `cr3`, whose name is `"ab"`. -/
def cexPlayerAB : Player := parsePlayer cr3

/-- Concrete record carrying only a rating of 89. -/
def w4Row : RawRecord := [(strCodes "rating", strCodes "89")]

/-- The player parsed from `w4Row`. -/
def w4Player : Player := parsePlayer w4Row

/-- Concrete record with name `"alpha"`. -/
def w6Row : RawRecord := [(strCodes "name", strCodes "alpha")]

/-- Concrete partial `{name: "zz"}`, matching nothing above. -/
def w6Query : PartialPlayer := [(Key.name, QVal.str (strCodes "zz"))]

/-- Concrete record none of whose columns is an expected one. -/
def c9Row : RawRecord := [(strCodes "foo", strCodes "bar")]

/-- Strict numeric equality against an integer holds exactly at that
integer, and never at `NaN`. -/
theorem jnumEq_int_iff (v : Int) (m : JNum) :
    (jnumEq (JNum.int v) m = true ↔ m = JNum.int v) ∧
    (m = JNum.nan → jnumEq (JNum.int v) m = false) := by
  cases m with
  | nan => simp [jnumEq]
  | int x =>
    refine ⟨?_, fun h => nomatch h⟩
    simp only [jnumEq, beq_iff_eq, JNum.int.injEq]
    exact eq_comm

/-- C5: the empty partial query matches every player. -/
theorem playerMatch_empty_query (pl : Player) : playerMatch [] pl = true := rfl

/-- C3 counterexample: the claim's normalization (which keeps `-` and
strips `:` and its neighbours) disagrees with the code.  For the query
string "a-b" and a player whose name is "ab", `playerMatch` is true (the
regex range `.-_` strips the hyphen), while the spec-described containment
test is false — so the claimed equivalence fails at this input. -/
theorem playerMatch_string_spec_mismatch :
    playerMatch [(Key.name, QVal.str (strCodes "a-b"))] cexPlayerAB = true ∧
    includes (specNormalize (pvalToStr (cexPlayerAB.get Key.name)))
      (specNormalize (strCodes "a-b")) = false := by
  decide

/-- C3 (amended): matching a single string-valued key is exactly substring
containment of the source's normalized forms, where normalization
lower-cases, NFKD-decomposes, and keeps precisely word characters,
whitespace, the ASCII range U+002E-U+005F, and `/` (so `-` is stripped
while `:`, `;`, `@`, `[`, `]`, `^` etc. are kept). -/
theorem playerMatch_string_single_includes (f : Key) (s : JStr) (pl : Player) :
    playerMatch [(f, QVal.str s)] pl =
      includes (jsNormalize (pvalToStr (pl.get f))) (jsNormalize s) := by
  simp [playerMatch, matchKey]

/-- C4: a numeric query matches exactly on strict equality of the integer
value, and a `NaN`-valued field (the failed-parse sentinel) matches no
integer query. -/
theorem playerMatch_numeric_exact (f : Key) (v : Int) (pl : Player)
    (h : numericField f = true) :
    (playerMatch [(f, QVal.num (JNum.int v))] pl = true ↔
      pl.get f = PVal.num (JNum.int v)) ∧
    (pl.get f = PVal.num JNum.nan →
      playerMatch [(f, QVal.num (JNum.int v))] pl = false) := by
  cases f
  case name | club | position | revision | league => exact absurd h (by decide)
  all_goals
    simp only [playerMatch, List.all_cons, List.all_nil, Bool.and_true,
      matchKey, Player.get, PVal.num.injEq]
    exact ⟨(jnumEq_int_iff v _).1, fun hn => (jnumEq_int_iff v _).2 hn⟩

/-- Witness for C4 at a concrete player with rating 89. -/
theorem playerMatch_numeric_exact_witness :
    (playerMatch [(Key.rating, QVal.num (JNum.int 89))] w4Player = true ↔
      w4Player.get Key.rating = PVal.num (JNum.int 89)) ∧
    (w4Player.get Key.rating = PVal.num JNum.nan →
      playerMatch [(Key.rating, QVal.num (JNum.int 89))] w4Player = false) :=
  playerMatch_numeric_exact Key.rating 89 w4Player (by decide)

/-- C7 counterexample: normalization is not idempotent.  U+2102
DOUBLE-STRUCK CAPITAL C has no lowercase mapping, and its NFKD
decomposition is the uppercase letter `C`, which the regex keeps; a second
pass lower-cases that `C` to `c`. -/
theorem jsNormalize_not_idempotent :
    jsNormalize (jsNormalize [0x2102]) ≠ jsNormalize [0x2102] := by decide

/-- Normalization distributes over concatenation. -/
theorem jsNormalize_append (a b : JStr) :
    jsNormalize (a ++ b) = jsNormalize a ++ jsNormalize b := by
  simp [jsNormalize, jsToLower, jsNFKD, List.filter_append]

/-- Normalization acts code point by code point. -/
theorem jsNormalize_eq_flatMap (s : JStr) : jsNormalize s = s.flatMap normChar := by
  induction s with
  | nil => rfl
  | cons c t ih =>
    simp [jsNormalize, jsToLower, jsNFKD, normChar, List.filter_append] at *
    exact ih

/-- Every ASCII code point normalizes to a string that normalization fixes. -/
theorem normChar_ascii_fixed :
    ∀ c, c < 128 → (normChar c).flatMap normChar = normChar c := by decide

/-- C7 (amended): normalization is idempotent on ASCII strings (code
points below 128); full idempotence fails on compatibility characters
whose NFKD output is uppercase, see the counterexample. -/
theorem jsNormalize_idempotent_ascii (s : JStr) (h : ∀ c ∈ s, c < 128) :
    jsNormalize (jsNormalize s) = jsNormalize s := by
  induction s with
  | nil => rfl
  | cons c t ih =>
    have hc : c < 128 := h c (by simp)
    have ht : ∀ x ∈ t, x < 128 := fun x hx => h x (by simp [hx])
    have h1 : jsNormalize (c :: t) = normChar c ++ jsNormalize t := by
      rw [jsNormalize_eq_flatMap, List.flatMap_cons, ← jsNormalize_eq_flatMap]
    have h2 : jsNormalize (normChar c) = normChar c := by
      rw [jsNormalize_eq_flatMap]; exact normChar_ascii_fixed c hc
    rw [h1, jsNormalize_append, ih ht, h2]

/-- Witness for C7 (amended) on a concrete ASCII string. -/
theorem jsNormalize_idempotent_ascii_witness :
    jsNormalize (jsNormalize (strCodes "Ab-C:x")) = jsNormalize (strCodes "Ab-C:x") :=
  jsNormalize_idempotent_ascii (strCodes "Ab-C:x") (by decide)

/-- A path that ends in ".csv" is nonempty. -/
theorem endsWith_csv_ne_nil (p : JStr) (h : jsEndsWith p csvSuffix = true) :
    p.isEmpty = false := by
  cases p with
  | nil => exact absurd h (by decide)
  | cons a t => rfl

/-- C8 counterexample: the empty path does not end in ".csv", yet
construction succeeds (keeping the default), because `if (dataPath)`
treats the falsy empty string as absent and the setter never runs. -/
theorem mkFUTSearch_empty_path_accepted :
    jsEndsWith [] csvSuffix = false ∧
    mkFUTSearch (strCodes "a.csv") (some []) = Except.ok (strCodes "a.csv") := by
  exact ⟨by decide, rfl⟩

/-- C8 (amended): construction with a NONEMPTY path not ending in ".csv"
throws the setter error before any stream is opened; a path ending in
".csv" is stored unchanged; the empty path is treated as absent and the
default path is kept. -/
theorem mkFUTSearch_validation (d p : JStr) :
    (p ≠ [] → jsEndsWith p csvSuffix = false →
      mkFUTSearch d (some p) = Except.error dataPathError) ∧
    (jsEndsWith p csvSuffix = true → mkFUTSearch d (some p) = Except.ok p) ∧
    mkFUTSearch d none = Except.ok d := by
  refine ⟨?_, ?_, rfl⟩
  · intro hne hsuf
    have hpe : p.isEmpty = false := by
      cases p with
      | nil => exact absurd rfl hne
      | cons a t => rfl
    simp [mkFUTSearch, hpe, setDataPath, hsuf]
  · intro hsuf
    have hpe := endsWith_csv_ne_nil p hsuf
    simp [mkFUTSearch, hpe, setDataPath, hsuf]

/-- Witness for C8 (amended) at concrete accepted and rejected paths. -/
theorem mkFUTSearch_validation_witness :
    mkFUTSearch (strCodes "d.csv") (some (strCodes "x.txt")) =
      Except.error dataPathError ∧
    mkFUTSearch (strCodes "d.csv") (some (strCodes "x.csv")) =
      Except.ok (strCodes "x.csv") :=
  ⟨(mkFUTSearch_validation (strCodes "d.csv") (strCodes "x.txt")).1
      (by decide) (by decide),
   (mkFUTSearch_validation (strCodes "d.csv") (strCodes "x.csv")).2.1 (by decide)⟩

/-- C10: path validation looks only at the ".csv" suffix — any suffixed
path is accepted at construction (there is no existence check in the
setter) — and a source whose stream fails to open surfaces that failure
only when a search runs, as the rejected promise carrying the stream
error. -/
theorem construction_checks_suffix_only (d p e : JStr)
    (pqs : List PartialPlayer) (fmo : Bool) (q : PartialPlayer)
    (h : jsEndsWith p csvSuffix = true) :
    mkFUTSearch d (some p) = Except.ok p ∧
    listPlayersBatchE (Except.error e) pqs fmo = Except.error e ∧
    findPlayerE (Except.error e) q = Except.error e := by
  refine ⟨?_, rfl, rfl⟩
  have hpe := endsWith_csv_ne_nil p h
  simp [mkFUTSearch, hpe, setDataPath, h]

/-- Witness for C10 with a path that names no real file. -/
theorem construction_checks_suffix_only_witness :
    mkFUTSearch (strCodes "d.csv") (some (strCodes "ghost.csv")) =
      Except.ok (strCodes "ghost.csv") ∧
    listPlayersBatchE (Except.error (strCodes "ENOENT")) [] false =
      Except.error (strCodes "ENOENT") ∧
    findPlayerE (Except.error (strCodes "ENOENT")) [] =
      Except.error (strCodes "ENOENT") :=
  construction_checks_suffix_only (strCodes "d.csv") (strCodes "ghost.csv")
    (strCodes "ENOENT") [] false [] (by decide)

/-- Zipping a list against an equally long list with the projection to the
second component returns the second list. -/
theorem zipWith_keep_right {α β : Type} :
    ∀ (l : List α) (l2 : List β), l2.length = l.length →
      List.zipWith (fun _ b => b) l l2 = l2 := by
  intro l
  induction l with
  | nil => intro l2 h; simp at h; simp [h]
  | cons a t ih =>
    intro l2 h
    cases l2 with
    | nil => simp at h
    | cons b t2 => simp at h; simp [ih t2 h]

/-- Fusing two zips over the same spine. -/
theorem zipWith_zipWith {α β γ δ : Type} (f : α → γ → δ) (g : α → β → γ) :
    ∀ (l : List α) (l2 : List β),
      List.zipWith f l (List.zipWith g l l2) =
        List.zipWith (fun a b => f a (g a b)) l l2 := by
  intro l
  induction l with
  | nil => intro l2; simp
  | cons a t ih => intro l2; cases l2 <;> simp [ih]

/-- Extensionality for `zipWith`. -/
theorem zipWith_ext {α β γ : Type} (f g : α → β → γ)
    (h : ∀ a b, f a b = g a b) :
    ∀ (l : List α) (l2 : List β), List.zipWith f l l2 = List.zipWith g l l2 := by
  intro l
  induction l with
  | nil => intro l2; simp
  | cons a t ih => intro l2; cases l2 <;> simp [h, ih]

/-- Zipping against the freshly initialized empty accumulators is a map. -/
theorem zipWith_emptyAccs (F : PartialPlayer → List Player) :
    ∀ pqs : List PartialPlayer,
      List.zipWith (fun q acc => acc ++ F q) pqs (emptyAccs pqs) = pqs.map F := by
  intro pqs
  induction pqs with
  | nil => rfl
  | cons q t ih => simp [emptyAccs] at ih ⊢; exact ih

/-- With `firstMatchOnly` unset the engine never exits early: it folds the
whole source, appending every matching parsed player to every matching
query's accumulator. -/
theorem runRows_no_fmo (pqs : List PartialPlayer) :
    ∀ (rows : List RawRecord) (accs : List (List Player)) (n m : Nat),
      accs.length = pqs.length →
      (runRows pqs false rows accs n m).results =
        List.zipWith
          (fun q acc => acc ++ (rows.map parsePlayer).filter (fun pl => playerMatch q pl))
          pqs accs := by
  intro rows
  induction rows with
  | nil =>
    intro accs n m h
    simp only [runRows, List.map_nil, List.filter_nil, List.append_nil]
    exact (zipWith_keep_right pqs accs h).symm
  | cons row rest ih =>
    intro accs n m h
    simp only [runRows, Bool.false_and, Bool.false_eq_true, if_false]
    rw [ih (updateAccs (parsePlayer row) false pqs accs) (n + 1) (m + 1)
        (by simp [updateAccs, h])]
    rw [updateAccs, zipWith_zipWith]
    refine zipWith_ext _ _ (fun q acc => ?_) pqs accs
    by_cases hb : playerMatch q (parsePlayer row) = true
    · simp [hb]
    · have hb' : playerMatch q (parsePlayer row) = false := by
        cases hq : playerMatch q (parsePlayer row)
        · rfl
        · exact absurd hq hb
      simp [hb']

/-- C1: with `firstMatchOnly = false`, `listPlayersBatch` returns one
result set per query, positionally aligned with the batch, and the i-th
result set is exactly the parsed players matching the i-th query, in
source encounter order. -/
theorem listPlayersBatch_no_fmo_spec (pqs : List PartialPlayer) (rows : List RawRecord) :
    (listPlayersBatch pqs rows false).length = pqs.length ∧
    ∀ i : Nat,
      (listPlayersBatch pqs rows false)[i]? =
        (pqs[i]?).map
          (fun q => (rows.map parsePlayer).filter (fun pl => playerMatch q pl)) := by
  have key : listPlayersBatch pqs rows false =
      pqs.map (fun q => (rows.map parsePlayer).filter (fun pl => playerMatch q pl)) := by
    rw [listPlayersBatch, runEngine,
      runRows_no_fmo pqs rows (emptyAccs pqs) 0 0 (by simp [emptyAccs])]
    exact zipWith_emptyAccs _ pqs
  rw [key]
  exact ⟨by simp, fun i => by simp⟩

/-- A record matching no query leaves the empty accumulators empty. -/
theorem updateAccs_no_match (pl : Player) (fmo : Bool) :
    ∀ pqs : List PartialPlayer,
      (∀ q ∈ pqs, playerMatch q pl = false) →
      updateAccs pl fmo pqs (emptyAccs pqs) = emptyAccs pqs := by
  intro pqs
  induction pqs with
  | nil => intro _; rfl
  | cons q t ih =>
    intro h
    have hq : playerMatch q pl = false := h q (by simp)
    have ht := ih (fun x hx => h x (List.mem_cons_of_mem _ hx))
    have h1 : emptyAccs (q :: t) = [] :: emptyAccs t := rfl
    rw [h1, updateAccs, List.zipWith_cons_cons, hq]
    simp only [Bool.false_and, Bool.false_eq_true, if_false]
    rw [← updateAccs, ht]

/-- A source none of whose records matches any query resolves with the
untouched empty accumulators, whatever `firstMatchOnly` is. -/
theorem runRows_none_match (pqs : List PartialPlayer) (fmo : Bool) :
    ∀ rows : List RawRecord,
      (∀ q ∈ pqs, ∀ row ∈ rows, playerMatch q (parsePlayer row) = false) →
      ∀ n m, (runRows pqs fmo rows (emptyAccs pqs) n m).results = emptyAccs pqs := by
  intro rows
  induction rows with
  | nil => intro _ n m; rfl
  | cons row rest ih =>
    intro h n m
    by_cases hc : (fmo && (emptyAccs pqs).all fun a => decide (0 < a.length)) = true
    · simp only [runRows, hc, if_true]
    · have hc' : (fmo && (emptyAccs pqs).all fun a => decide (0 < a.length)) = false := by
        cases hx : (fmo && (emptyAccs pqs).all fun a => decide (0 < a.length))
        · rfl
        · exact absurd hx hc
      simp only [runRows, hc', Bool.false_eq_true, if_false]
      rw [updateAccs_no_match (parsePlayer row) fmo pqs
          (fun q hq => h q hq row (by simp))]
      exact ih (fun q hq r hr => h q hq r (by simp [hr])) _ _

/-- C6: absence of a match is never an error.  Over a successfully read
source with no matching record, `listPlayersBatch` resolves (not rejects)
with one empty array per query, `listPlayers` with an empty array, and
`findPlayer` with an absent value. -/
theorem no_match_resolves_empty (rows : List RawRecord)
    (pqs : List PartialPlayer) (fmo : Bool) (q : PartialPlayer)
    (hb : ∀ p ∈ pqs, ∀ row ∈ rows, playerMatch p (parsePlayer row) = false)
    (hq : ∀ row ∈ rows, playerMatch q (parsePlayer row) = false) :
    listPlayersBatchE (Except.ok rows) pqs fmo = Except.ok (emptyAccs pqs) ∧
    listPlayersE (Except.ok rows) q = Except.ok [] ∧
    findPlayerE (Except.ok rows) q = Except.ok none := by
  have hq1 : ∀ p ∈ [q], ∀ row ∈ rows, playerMatch p (parsePlayer row) = false := by
    intro p hp
    have : p = q := by simpa using hp
    subst this
    exact hq
  have h1 : listPlayersBatch pqs rows fmo = emptyAccs pqs :=
    runRows_none_match pqs fmo rows hb 0 0
  have h2 : listPlayersBatch [q] rows false = [[]] :=
    runRows_none_match [q] false rows hq1 0 0
  have h3 : listPlayersBatch [q] rows true = [[]] :=
    runRows_none_match [q] true rows hq1 0 0
  refine ⟨?_, ?_, ?_⟩
  · simp [listPlayersBatchE, h1]
  · simp [listPlayersE, listPlayersBatchE, h2]
  · simp [findPlayerE, listPlayersBatchE, h3]

/-- Witness for C6 over a one-record source matched by nothing. -/
theorem no_match_resolves_empty_witness :
    listPlayersBatchE (Except.ok [w6Row]) [w6Query] false =
      Except.ok (emptyAccs [w6Query]) ∧
    listPlayersE (Except.ok [w6Row]) w6Query = Except.ok [] ∧
    findPlayerE (Except.ok [w6Row]) w6Query = Except.ok none :=
  no_match_resolves_empty [w6Row] [w6Query] false w6Query (by decide) (by decide)

/-- C9: a raw record missing expected columns still parses without error:
each absent string field holds the literal six-character text "undefined"
(`String(undefined)`), each absent numeric field holds the `NaN` sentinel
(`parseInt` applied to the text "undefined"), and string queries are then
matched against that literal text. -/
theorem parsePlayer_missing_columns (r : RawRecord) :
    (lookupLower r (strCodes "name") = none → (parsePlayer r).name = undefStr) ∧
    (lookupLower r (strCodes "club") = none → (parsePlayer r).club = undefStr) ∧
    (lookupLower r (strCodes "position") = none → (parsePlayer r).position = undefStr) ∧
    (lookupLower r (strCodes "revision") = none → (parsePlayer r).revision = undefStr) ∧
    (lookupLower r (strCodes "league") = none → (parsePlayer r).league = undefStr) ∧
    (lookupLower r (strCodes "rating") = none → (parsePlayer r).rating = JNum.nan) ∧
    (lookupLower r (strCodes "pace") = none → (parsePlayer r).pace = JNum.nan) ∧
    (lookupLower r (strCodes "shooting") = none → (parsePlayer r).shooting = JNum.nan) ∧
    (lookupLower r (strCodes "passing") = none → (parsePlayer r).passing = JNum.nan) ∧
    (lookupLower r (strCodes "dribbling") = none → (parsePlayer r).dribbling = JNum.nan) ∧
    (lookupLower r (strCodes "defending") = none → (parsePlayer r).defending = JNum.nan) ∧
    (lookupLower r (strCodes "physicality") = none → (parsePlayer r).physicality = JNum.nan) ∧
    (parseInt10 undefStr = JNum.nan) ∧
    (lookupLower r (strCodes "name") = none → ∀ s : JStr,
      playerMatch [(Key.name, QVal.str s)] (parsePlayer r) =
        includes (jsNormalize undefStr) (jsNormalize s)) := by
  refine ⟨?_, ?_, ?_, ?_, ?_, ?_, ?_, ?_, ?_, ?_, ?_, ?_, by decide, ?_⟩
  all_goals intro h
  case _ => simp [parsePlayer, jsString, h, undefStr]
  case _ => simp [parsePlayer, jsString, h, undefStr]
  case _ => simp [parsePlayer, jsString, h, undefStr]
  case _ => simp [parsePlayer, jsString, h, undefStr]
  case _ => simp [parsePlayer, jsString, h, undefStr]
  case _ => simp only [parsePlayer, jsString, h, Option.getD_none]; decide
  case _ => simp only [parsePlayer, jsString, h, Option.getD_none]; decide
  case _ => simp only [parsePlayer, jsString, h, Option.getD_none]; decide
  case _ => simp only [parsePlayer, jsString, h, Option.getD_none]; decide
  case _ => simp only [parsePlayer, jsString, h, Option.getD_none]; decide
  case _ => simp only [parsePlayer, jsString, h, Option.getD_none]; decide
  case _ => simp only [parsePlayer, jsString, h, Option.getD_none]; decide
  case _ =>
    intro s
    have hn : (parsePlayer r).name = undefStr := by
      simp [parsePlayer, jsString, h, undefStr]
    simp only [playerMatch, List.all_cons, List.all_nil, Bool.and_true,
      matchKey, Player.get, pvalToStr, hn]

/-- Witness for C9 on a record with a single unexpected column. -/
theorem parsePlayer_missing_columns_witness :
    (parsePlayer c9Row).name = undefStr ∧ (parsePlayer c9Row).rating = JNum.nan :=
  ⟨(parsePlayer_missing_columns c9Row).1 (by decide),
   (parsePlayer_missing_columns c9Row).2.2.2.2.2.1 (by decide)⟩

/-- Every freshly initialized accumulator is empty. -/
theorem mem_emptyAccs (pqs : List PartialPlayer) (a : List Player)
    (h : a ∈ emptyAccs pqs) : a = [] := by
  simp only [emptyAccs, List.mem_map] at h
  obtain ⟨_, _, hh⟩ := h
  exact hh.symm

/-- Under `firstMatchOnly` an update never grows an accumulator past one
entry. -/
theorem updateAccs_len_le_one (pl : Player) :
    ∀ (pqs : List PartialPlayer) (accs : List (List Player)),
      (∀ a ∈ accs, a.length ≤ 1) →
      ∀ b ∈ updateAccs pl true pqs accs, b.length ≤ 1 := by
  intro pqs
  induction pqs with
  | nil => intro accs _ b hb; simp [updateAccs] at hb
  | cons q t ih =>
    intro accs h b hb
    cases accs with
    | nil => simp [updateAccs] at hb
    | cons a as =>
      rw [updateAccs, List.zipWith_cons_cons] at hb
      rcases List.mem_cons.mp hb with hb1 | hb2
      · subst hb1
        by_cases ha : 0 < a.length
        · simp only [decide_eq_true ha, Bool.and_true, Bool.not_true,
            Bool.and_false, Bool.false_eq_true, if_false]
          exact h a (by simp)
        · have ha0 : a = [] := List.length_eq_zero.mp (Nat.eq_zero_of_not_pos ha)
          subst ha0
          cases hq : playerMatch q pl <;> simp [hq]
      · exact ih as (fun x hx => h x (List.mem_cons_of_mem _ hx)) b hb2

/-- After a record that matches every query, every accumulator is
nonempty. -/
theorem updateAccs_all_pos (pl : Player) :
    ∀ (pqs : List PartialPlayer) (accs : List (List Player)),
      (∀ q ∈ pqs, playerMatch q pl = true) →
      ∀ b ∈ updateAccs pl true pqs accs, 0 < b.length := by
  intro pqs
  induction pqs with
  | nil => intro accs _ b hb; simp [updateAccs] at hb
  | cons q t ih =>
    intro accs h b hb
    cases accs with
    | nil => simp [updateAccs] at hb
    | cons a as =>
      rw [updateAccs, List.zipWith_cons_cons] at hb
      rcases List.mem_cons.mp hb with hb1 | hb2
      · subst hb1
        have hq : playerMatch q pl = true := h q (by simp)
        by_cases ha : 0 < a.length
        · cases hc : (playerMatch q pl && !(true && decide (0 < a.length))) <;>
            simp [hc, ha]
        · have ha0 : a = [] := List.length_eq_zero.mp (Nat.eq_zero_of_not_pos ha)
          subst ha0
          simp [hq]
      · exact ih as (fun x hx => h x (List.mem_cons_of_mem _ hx)) b hb2

/-- With `firstMatchOnly` set and every accumulator already nonempty, the
next incoming record triggers immediate resolution: that record is read
(its `data` event fired) but not parsed, and the accumulators are returned
as they stand. -/
theorem runRows_exit (pqs : List PartialPlayer) (r : RawRecord)
    (rest : List RawRecord) (accs : List (List Player)) (n m : Nat)
    (h : (accs.all fun a => decide (0 < a.length)) = true) :
    runRows pqs true (r :: rest) accs n m = ⟨accs, n + 1, m⟩ := by
  simp [runRows, h]

/-- With `firstMatchOnly` set but some accumulator still empty, the next
record is read, parsed and matched. -/
theorem runRows_step (pqs : List PartialPlayer) (r : RawRecord)
    (rest : List RawRecord) (accs : List (List Player)) (n m : Nat)
    (h : (accs.all fun a => decide (0 < a.length)) = false) :
    runRows pqs true (r :: rest) accs n m =
      runRows pqs true rest (updateAccs (parsePlayer r) true pqs accs)
        (n + 1) (m + 1) := by
  simp [runRows, h]

/-- C2 (amended): with `firstMatchOnly = true`, when query k is satisfied
by the first record, query j by the third, and every query by the third,
the engine parses at most the first three records and reads at most one
record beyond the third (the fourth `data` event, when a fourth record
exists, only triggers resolution), and every result set holds exactly one
entity. -/
theorem firstMatchOnly_bounds (pqs : List PartialPlayer)
    (r1 r2 r3 : RawRecord) (rest : List RawRecord) (k j : Nat)
    (hk : k < pqs.length) (hj : j < pqs.length)
    (hk1 : playerMatch pqs[k] (parsePlayer r1) = true)
    (hj3 : playerMatch pqs[j] (parsePlayer r3) = true)
    (hall : ∀ q ∈ pqs, playerMatch q (parsePlayer r3) = true) :
    (runEngine pqs (r1 :: r2 :: r3 :: rest) true).recordsParsed ≤ 3 ∧
    (runEngine pqs (r1 :: r2 :: r3 :: rest) true).recordsRead ≤ 4 ∧
    ∀ a ∈ (runEngine pqs (r1 :: r2 :: r3 :: rest) true).results, a.length = 1 := by
  have hne : pqs ≠ [] := by
    intro he
    subst he
    simp at hk
  have hc0 : ((emptyAccs pqs).all fun a => decide (0 < a.length)) = false := by
    cases pqs with
    | nil => exact absurd rfl hne
    | cons q t => simp [emptyAccs]
  have hA0le : ∀ a ∈ emptyAccs pqs, a.length ≤ 1 := by
    intro a ha
    rw [mem_emptyAccs pqs a ha]
    simp
  have hA1le : ∀ a ∈ updateAccs (parsePlayer r1) true pqs (emptyAccs pqs), a.length ≤ 1 :=
    updateAccs_len_le_one _ pqs _ hA0le
  have hE1 : runEngine pqs (r1 :: r2 :: r3 :: rest) true =
      runRows pqs true (r2 :: r3 :: rest)
        (updateAccs (parsePlayer r1) true pqs (emptyAccs pqs)) 1 1 := by
    rw [runEngine, runRows_step pqs r1 _ _ 0 0 hc0]
  cases hc1 : ((updateAccs (parsePlayer r1) true pqs (emptyAccs pqs)).all
      fun a => decide (0 < a.length)) with
  | true =>
    have hE : runEngine pqs (r1 :: r2 :: r3 :: rest) true =
        ⟨updateAccs (parsePlayer r1) true pqs (emptyAccs pqs), 2, 1⟩ := by
      rw [hE1, runRows_exit pqs r2 _ _ 1 1 hc1]
    rw [hE]
    refine ⟨by show (1 : Nat) ≤ 3; decide, by show (2 : Nat) ≤ 4; decide, ?_⟩
    intro a ha
    have hpos : 0 < a.length := of_decide_eq_true (List.all_eq_true.mp hc1 a ha)
    exact Nat.le_antisymm (hA1le a ha) hpos
  | false =>
    have hA2le : ∀ a ∈ updateAccs (parsePlayer r2) true pqs
        (updateAccs (parsePlayer r1) true pqs (emptyAccs pqs)), a.length ≤ 1 :=
      updateAccs_len_le_one _ pqs _ hA1le
    have hE2 : runEngine pqs (r1 :: r2 :: r3 :: rest) true =
        runRows pqs true (r3 :: rest)
          (updateAccs (parsePlayer r2) true pqs
            (updateAccs (parsePlayer r1) true pqs (emptyAccs pqs))) 2 2 := by
      rw [hE1, runRows_step pqs r2 _ _ 1 1 hc1]
    cases hc2 : ((updateAccs (parsePlayer r2) true pqs
        (updateAccs (parsePlayer r1) true pqs (emptyAccs pqs))).all
        fun a => decide (0 < a.length)) with
    | true =>
      have hE : runEngine pqs (r1 :: r2 :: r3 :: rest) true =
          ⟨updateAccs (parsePlayer r2) true pqs
            (updateAccs (parsePlayer r1) true pqs (emptyAccs pqs)), 3, 2⟩ := by
        rw [hE2, runRows_exit pqs r3 _ _ 2 2 hc2]
      rw [hE]
      refine ⟨by show (2 : Nat) ≤ 3; decide, by show (3 : Nat) ≤ 4; decide, ?_⟩
      intro a ha
      have hpos : 0 < a.length := of_decide_eq_true (List.all_eq_true.mp hc2 a ha)
      exact Nat.le_antisymm (hA2le a ha) hpos
    | false =>
      have hA3le : ∀ a ∈ updateAccs (parsePlayer r3) true pqs
          (updateAccs (parsePlayer r2) true pqs
            (updateAccs (parsePlayer r1) true pqs (emptyAccs pqs))), a.length ≤ 1 :=
        updateAccs_len_le_one _ pqs _ hA2le
      have hA3pos : ∀ b ∈ updateAccs (parsePlayer r3) true pqs
          (updateAccs (parsePlayer r2) true pqs
            (updateAccs (parsePlayer r1) true pqs (emptyAccs pqs))), 0 < b.length :=
        updateAccs_all_pos _ pqs _ hall
      have hE3 : runEngine pqs (r1 :: r2 :: r3 :: rest) true =
          runRows pqs true rest
            (updateAccs (parsePlayer r3) true pqs
              (updateAccs (parsePlayer r2) true pqs
                (updateAccs (parsePlayer r1) true pqs (emptyAccs pqs)))) 3 3 := by
        rw [hE2, runRows_step pqs r3 _ _ 2 2 hc2]
      have hlen : ∀ a ∈ updateAccs (parsePlayer r3) true pqs
          (updateAccs (parsePlayer r2) true pqs
            (updateAccs (parsePlayer r1) true pqs (emptyAccs pqs))), a.length = 1 :=
        fun a ha => Nat.le_antisymm (hA3le a ha) (hA3pos a ha)
      cases rest with
      | nil =>
        have hE : runEngine pqs [r1, r2, r3] true =
            ⟨updateAccs (parsePlayer r3) true pqs
              (updateAccs (parsePlayer r2) true pqs
                (updateAccs (parsePlayer r1) true pqs (emptyAccs pqs))), 3, 3⟩ := by
          rw [hE3]
          rfl
        rw [hE]
        exact ⟨by show (3 : Nat) ≤ 3; decide, by show (3 : Nat) ≤ 4; decide, hlen⟩
      | cons r4 rest2 =>
        have hc3 : ((updateAccs (parsePlayer r3) true pqs
            (updateAccs (parsePlayer r2) true pqs
              (updateAccs (parsePlayer r1) true pqs (emptyAccs pqs)))).all
            fun a => decide (0 < a.length)) = true := by
          rw [List.all_eq_true]
          intro a ha
          exact decide_eq_true (hA3pos a ha)
        have hE : runEngine pqs (r1 :: r2 :: r3 :: r4 :: rest2) true =
            ⟨updateAccs (parsePlayer r3) true pqs
              (updateAccs (parsePlayer r2) true pqs
                (updateAccs (parsePlayer r1) true pqs (emptyAccs pqs))), 4, 3⟩ := by
          rw [hE3, runRows_exit pqs r4 rest2 _ 3 3 hc3]
        rw [hE]
        exact ⟨by show (3 : Nat) ≤ 3; decide, by show (4 : Nat) ≤ 4; decide, hlen⟩

/-- Witness for C2 (amended) at the concrete four-record scenario. -/
theorem firstMatchOnly_bounds_witness :
    (runEngine [cq0, cq1] (cr1 :: cr2 :: cr3 :: [cr4]) true).recordsParsed ≤ 3 ∧
    (runEngine [cq0, cq1] (cr1 :: cr2 :: cr3 :: [cr4]) true).recordsRead ≤ 4 ∧
    ∀ a ∈ (runEngine [cq0, cq1] (cr1 :: cr2 :: cr3 :: [cr4]) true).results,
      a.length = 1 :=
  firstMatchOnly_bounds [cq0, cq1] cr1 cr2 cr3 [cr4] 0 1
    (by decide) (by decide) (by decide) (by decide) (by decide)

/-- C2 counterexample: in a four-record source where query 0 is satisfied
by the first record, query 1 (and every query) by the third, the engine's
fourth `data` event still fires — the fourth record IS read from the
source before resolution — so `recordsRead` is 4, refuting "never reads a
record past the third". -/
theorem firstMatchOnly_reads_fourth_record :
    playerMatch cq0 (parsePlayer cr1) = true ∧
    playerMatch cq1 (parsePlayer cr3) = true ∧
    (∀ q ∈ [cq0, cq1], playerMatch q (parsePlayer cr3) = true) ∧
    (runEngine [cq0, cq1] [cr1, cr2, cr3, cr4] true).recordsRead = 4 := by
  decide
